import Mathlib

/-!
# Verification of the crawl engine of `go-project-316`

A shallow embedding, in Lean 4, of the components of the Go web crawler
that the specification's claims are about:

* the rate limiter (`internal/limiter`),
* the fetcher's retry/backoff policy (`internal/fetcher`),
* the per-URL single-flight fetch cache (`crawler/analyzer_internal.go`),
* the page processor and its link-check / asset pipeline,
* the aggregator's enqueue/handle-result protocol,
* report assembly (`newReport`, `newPage`, `analyzeReport`, `marshalReport`).

Go machine integers (`int`, `int64`, `time.Duration` in nanoseconds) are
modelled as `Int`; all arithmetic performed by the translated code stays
far below `2^62`, so no wrap-around is reachable and plain `Int` is a
faithful model.  Go strings are Lean `String`s (Go compares strings
bytewise over UTF-8, which coincides with Lean's character-wise
lexicographic order because UTF-8 preserves code-point order).  Go `nil`
slices versus empty slices are modelled as `Option (List _)`
(`none` = nil).  Stateful concurrent code is modelled as explicit state
passing (sequential determinization) or as a step relation on a state
type (the single-flight cache).
-/

namespace Crawl

/-! ## Durations (Go `time.Duration`, nanoseconds as `Int`) -/

/-- `internal/fetcher`, `baseRetryDelay = 100 * time.Millisecond`. -/
def baseRetryDelay : Int := 100000000

/-- `internal/fetcher`, `maxRetryDelay = 2 * time.Second`. -/
def maxRetryDelay : Int := 2000000000

/-! ## Rate limiter (`internal/limiter`, `part_007`)

`time.Time` is modelled as an `Int` instant (nanoseconds); the zero
`time.Time` (`last.IsZero()`) is modelled by `Option Int` with `none`
for the zero value.  The mutex-protected section of `Limiter.Wait` is a
single atomic step `limiterWait`; the sleep happens outside the lock and
is represented by the returned `sleep` amount.  The grant instant is the
value written to `last` (the reserved slot for the sleeping branch, the
observed `now` otherwise). -/

/-- State of `limiter.Limiter`: the configured interval and the `last`
grant time (`none` models the zero `time.Time`). -/
structure Limiter where
  interval : Int
  last : Option Int
deriving DecidableEq

/-- `limiter.NewWithTimer`: a non-positive interval yields the nil
limiter (modelled as `none`); otherwise a limiter with zero `last`. -/
def newWithTimer (interval : Int) : Option Limiter :=
  if interval ≤ 0 then none else some { interval := interval, last := none }

/-- Outcome of one `Limiter.Wait` call: the updated limiter state, the
duration slept via the clock (0 when the call returns immediately) and
the grant instant (the new value of `last`). -/
structure WaitRes where
  st : Limiter
  sleep : Int
  grant : Int
deriving DecidableEq

/-- The locked section of `Limiter.Wait` (part_007 lines 52–79):
first call records `now` and returns immediately; otherwise with
`next = last + interval`, if `now < next` the waiter reserves
`last = next` and sleeps `next - now`; otherwise `last = now` with no
sleep. -/
def limiterWait (l : Limiter) (now : Int) : WaitRes :=
  match l.last with
  | none => { st := { l with last := some now }, sleep := 0, grant := now }
  | some last =>
    let next := last + l.interval
    if now < next then
      { st := { l with last := some next }, sleep := next - now, grant := next }
    else
      { st := { l with last := some now }, sleep := 0, grant := now }

/-- The grant instants produced by a sequence of `Wait` calls whose
observed `clock.Now()` values are `nows` (the mutex serializes the
calls, so a list of observations is the faithful picture). -/
def grantsFrom (l : Limiter) : List Int → List Int
  | [] => []
  | now :: nows =>
    let r := limiterWait l now
    r.grant :: grantsFrom r.st nows

/-! ## Fetcher backoff (`internal/fetcher`, `part_015`) -/

/-- The loop body of `Fetcher.retryDelayFor` (part_015 lines 295–314):
`for i := 1; i < attempt; i++ { if delay >= maxRetryDelay { return
maxRetryDelay }; delay *= 2 }` followed by the final cap.  The `Nat`
argument is the number of loop iterations left (`attempt - 1`). -/
def retryDelayLoop (delay : Int) : Nat → Int
  | 0 => if delay > maxRetryDelay then maxRetryDelay else delay
  | n + 1 =>
    if delay ≥ maxRetryDelay then maxRetryDelay
    else retryDelayLoop (delay * 2) n

/-- `Fetcher.retryDelayFor`: clamps `attempt` below by 1 and doubles the
configured retry delay, capped at `maxRetryDelay`. -/
def retryDelayFor (retryDelay : Int) (attempt : Nat) : Int :=
  let a := if attempt < 1 then 1 else attempt
  retryDelayLoop retryDelay (a - 1)

/-- The retry-delay normalization in `fetcher.New` (part_015 lines
42–64): `if retryDelay <= 0 { retryDelay = baseRetryDelay }`.  The
`retryDelay` argument that `analyzeReport` passes is `opts.Delay`
(README `analyzeReport`, the `fetcher.New(..., opts.Retries, opts.Delay,
...)` call). -/
def newRetryDelay (retryDelay : Int) : Int :=
  if retryDelay ≤ 0 then baseRetryDelay else retryDelay

/-! ## Fetcher retry classification (`part_015` lines 174–264)

Go error values are modelled as a small inductive capturing exactly the
shapes the classification code distinguishes.  Wrappers mirror the
wrapping the code performs or observes: `urlErr` is a `*url.Error` (the
error type `http.Client.Do` returns — note `*url.Error` itself
implements `net.Error`), `readBody` is the
`fmt.Errorf("read body: %w", err)` wrapper, `netErr` stands for any
other implementor of `net.Error` (connection reset, temporary DNS
failure, ...), and `other` for any remaining leaf error (for example
`"unsupported protocol scheme"` from the HTTP transport). -/

/-- Error values as classified by the fetcher. -/
inductive GoErr where
  | invalidRequest
  | ctxCanceled
  | ctxDeadline
  | eof
  | unexpectedEOF
  | netErr
  | other (msg : String)
  | urlErr (inner : GoErr)
  | readBody (inner : GoErr)
deriving DecidableEq

/-- `isContextCanceled` (part_015 lines 252–254):
`errors.Is(err, context.Canceled) || errors.Is(err,
context.DeadlineExceeded)`; `errors.Is` unwraps wrapper errors. -/
def isContextCanceled : GoErr → Bool
  | .ctxCanceled => true
  | .ctxDeadline => true
  | .urlErr e => isContextCanceled e
  | .readBody e => isContextCanceled e
  | _ => false

/-- `errors.Is(err, errInvalidRequest)`, unwrapping wrappers. -/
def isInvalidRequestErr : GoErr → Bool
  | .invalidRequest => true
  | .urlErr e => isInvalidRequestErr e
  | .readBody e => isInvalidRequestErr e
  | _ => false

/-- `isEOFLike` (part_015 lines 262–264): `errors.Is(err, io.EOF) ||
errors.Is(err, io.ErrUnexpectedEOF)`. -/
def isEOFLike : GoErr → Bool
  | .eof => true
  | .unexpectedEOF => true
  | .urlErr e => isEOFLike e
  | .readBody e => isEOFLike e
  | _ => false

/-- `isNetError` (part_015 lines 256–260): `errors.As(err, &netErr)`
for `netErr net.Error`.  `*url.Error` implements `net.Error`, as does
`context.DeadlineExceeded`; `errors.As` unwraps wrappers. -/
def isNetError : GoErr → Bool
  | .netErr => true
  | .ctxDeadline => true
  | .urlErr _ => true
  | .readBody e => isNetError e
  | _ => false

/-- `errors.As(err, &urlErr)` for `urlErr *url.Error`: the first
`*url.Error` in the unwrap chain, if any. -/
def findURLErr : GoErr → Option GoErr
  | .urlErr e => some (.urlErr e)
  | .readBody e => findURLErr e
  | _ => none

/-- `isRetryableURLError` and its unwrap loop (part_015 lines 208–250).
Each iteration checks context cancellation, `errInvalidRequest` and
EOF-likeness on the current error (all three via `errors.Is`, which is
invariant under unwrapping, so checking at a wrapper equals checking at
its contents), then follows `errors.As(err, &inner); err = inner.Err`
into the next nested `*url.Error`, and finally falls back to
`isNetError`. -/
def isRetryableURLError : GoErr → Bool
  | .urlErr e =>
    if isContextCanceled (.urlErr e) then false
    else if isInvalidRequestErr (.urlErr e) then false
    else if isEOFLike (.urlErr e) then true
    else isRetryableURLError e
  | .readBody e =>
    if isContextCanceled (.readBody e) then false
    else if isInvalidRequestErr (.readBody e) then false
    else if isEOFLike (.readBody e) then true
    else isRetryableURLError e
  | e =>
    if isContextCanceled e then false
    else if isInvalidRequestErr e then false
    else if isEOFLike e then true
    else isNetError e

/-- `isRetryableError` (part_015 lines 186–206). -/
def isRetryableError (e : GoErr) : Bool :=
  if isContextCanceled e then false
  else if isInvalidRequestErr e then false
  else if isEOFLike e then true
  else
    match findURLErr e with
    | some u => isRetryableURLError u
    | none => isNetError e

/-- `isRetryable` (part_015 lines 174–184): with an error, classify the
error; otherwise HTTP 429 and any 5xx are retryable. -/
def isRetryable (statusCode : Nat) (err : Option GoErr) : Bool :=
  match err with
  | some e => isRetryableError e
  | none =>
    if statusCode = 429 then true
    else statusCode ≥ 500

/-- `net/http.StatusText`, modelled for the status codes exercised by
this repository; codes outside the table take the unassigned-code
fallback (empty string), exactly as in the Go table. -/
def httpStatusText (code : Nat) : String :=
  match code with
  | 200 => "OK"
  | 301 => "Moved Permanently"
  | 400 => "Bad Request"
  | 403 => "Forbidden"
  | 404 => "Not Found"
  | 429 => "Too Many Requests"
  | 500 => "Internal Server Error"
  | 502 => "Bad Gateway"
  | 503 => "Service Unavailable"
  | _ => ""

/-- `statusText` (part_015 lines 278–285 and the identical README
copy): falls back to `"http status N"` when the table has no text. -/
def statusText (statusCode : Nat) : String :=
  let text := httpStatusText statusCode
  if text = "" then "http status " ++ toString statusCode else text

/-- `errorForStatus` (part_015 lines 266–276): keep an existing error;
otherwise synthesize a status-text error for `status >= 400`. -/
def errorForStatusE (err : Option GoErr) (statusCode : Nat) : Option GoErr :=
  match err with
  | some e => some e
  | none =>
    if statusCode ≥ 400 then some (.other (statusText statusCode)) else none

/-- `coalesceError` (part_015 lines 287–293). -/
def coalesceErr (primary : Option GoErr) (fallback : GoErr) : GoErr :=
  match primary with
  | some e => e
  | none => fallback

/-! ## The Fetch retry loop (`part_015` lines 68–128)

One attempt (`fetchOnce` + classification) is determinized by three
environment functions indexed by the attempt number: `env n` is the
`(Result, error)` pair attempt `n` produces, `ctxE n` the value of
`ctx.Err()` observed during iteration `n` (a context's error is
monotone, so the two reads in one iteration agree), and `slpE n` the
result of the backoff sleep taken after attempt `n`.  The loop
`for attempt := range attempts` is structural recursion on the number
of iterations left; `attempt == attempts-1` holds exactly when one
iteration is left. -/

/-- The `(Result, error)` pair produced by one `fetchOnce` call. -/
structure AttemptOutcome where
  statusCode : Nat
  err : Option GoErr
deriving DecidableEq

/-- What `Fetcher.Fetch` returns, with the number of attempts made. -/
structure FetchOut where
  statusCode : Nat
  err : Option GoErr
  attemptsUsed : Nat
deriving DecidableEq

/-- The body of `Fetcher.Fetch`'s loop, including `shouldRetry`
(part_015 lines 105–128), at iteration `attempt` with `remaining`
iterations left. -/
def fetchAux (env : Nat → AttemptOutcome) (ctxE slpE : Nat → Option GoErr) :
    Nat → Nat → FetchOut
  | attempt, 0 => { statusCode := 0, err := none, attemptsUsed := attempt }
  | attempt, remaining + 1 =>
    let r := env attempt
    if r.err = none ∧ r.statusCode < 400 then
      match ctxE attempt with
      | some e => { statusCode := 0, err := some e, attemptsUsed := attempt + 1 }
      | none => { statusCode := r.statusCode, err := none, attemptsUsed := attempt + 1 }
    else
      match ctxE attempt with
      | some e =>
        { statusCode := r.statusCode, err := some (coalesceErr r.err e),
          attemptsUsed := attempt + 1 }
      | none =>
        if isRetryable r.statusCode r.err = false ∨ remaining = 0 then
          { statusCode := r.statusCode, err := errorForStatusE r.err r.statusCode,
            attemptsUsed := attempt + 1 }
        else
          match slpE attempt with
          | some e =>
            { statusCode := r.statusCode, err := some e, attemptsUsed := attempt + 1 }
          | none => fetchAux env ctxE slpE (attempt + 1) remaining

/-- `Fetcher.Fetch` with `attempts = retries + 1` (part_015 line 69;
`Retries` is non-negative in every configuration the program builds). -/
def fetchGo (retries : Nat) (env : Nat → AttemptOutcome)
    (ctxE slpE : Nat → Option GoErr) : FetchOut :=
  fetchAux env ctxE slpE 0 (retries + 1)

/-! ## A model of `net/url` (the Go standard library)

The crawler manipulates URLs through `net/url`.  The model below
implements `url.Parse`, `URL.String`, `URL.ResolveReference`,
`URL.Hostname`/`URL.Port` for the URL shapes this repository handles:
`scheme://host[:port]/path[?query][#fragment]`, scheme-relative
(`//host/...`), path-relative and opaque (`mailto:...`) references.
Userinfo, IPv6 bracket hosts and percent-escaping are outside the
shapes the repository's inputs take and are not modelled. -/

/-- ASCII lowercase of one character (`strings.ToLower` acts
byte-wise on the ASCII schemes and hosts handled here). -/
def asciiLowerChar (c : Char) : Char :=
  if 'A' ≤ c ∧ c ≤ 'Z' then Char.ofNat (c.toNat + 32) else c

/-- `strings.ToLower` for ASCII strings. -/
def strToLower (s : String) : String :=
  String.mk (s.toList.map asciiLowerChar)

/-- The whitespace class `strings.TrimSpace` strips, restricted to the
characters that occur in this repository's inputs. -/
def isSpaceGo (c : Char) : Bool :=
  c = ' ' ∨ c = '\t' ∨ c = '\n' ∨ c = '\r'

/-- `strings.TrimSpace`. -/
def strTrim (s : String) : String :=
  String.mk (((s.toList.dropWhile isSpaceGo).reverse.dropWhile isSpaceGo).reverse)

/-- Character-list prefix test. -/
def listPrefixMatch : List Char → List Char → Bool
  | [], _ => true
  | _ :: _, [] => false
  | p :: ps, c :: cs => if p = c then listPrefixMatch ps cs else false

/-- `strings.HasPrefix s pre`. -/
def strStartsWith (s pre : String) : Bool :=
  listPrefixMatch pre.toList s.toList

/-- `strings.Split` on a one-character separator. -/
def splitOnChar (sep : Char) : List Char → List String
  | [] => [""]
  | c :: rest =>
    let r := splitOnChar sep rest
    if c = sep then "" :: r
    else
      match r with
      | s :: ss => String.mk (c :: s.toList) :: ss
      | [] => [String.mk [c]]

/-- `strings.Join`. -/
def strJoin (sep : String) : List String → String
  | [] => ""
  | [s] => s
  | s :: rest => s ++ sep ++ strJoin sep rest

/-- A parsed URL (Go `url.URL`): `host` includes any explicit port. -/
structure GoURL where
  scheme : String
  opq : String
  host : String
  path : String
  query : String
  forceQuery : Bool
  fragment : String
deriving DecidableEq

/-- Split a character list at the first occurrence of `sep`:
the part before, and (when `sep` occurs) the part after. -/
def splitFirst (sep : Char) : List Char → List Char × Option (List Char)
  | [] => ([], none)
  | c :: cs =>
    if c = sep then ([], some cs)
    else
      let r := splitFirst sep cs
      (c :: r.1, r.2)

/-- `getScheme` inside `url.Parse`: the prefix before a `':'` that
occurs before any `'/'` or `'?'`; an empty prefix before `':'` is the
"missing protocol scheme" error.  Go lowercases the scheme. -/
def getScheme (cs : List Char) : Option (String × List Char) :=
  let pre := cs.takeWhile (fun c => c ≠ ':' ∧ c ≠ '/' ∧ c ≠ '?')
  match cs.drop pre.length with
  | ':' :: rest =>
    if pre = [] then none else some (strToLower (String.mk pre), rest)
  | _ => some ("", cs)

/-- `url.Parse`. -/
def urlParse (raw : String) : Option GoURL :=
  let cs := raw.toList
  let (beforeFrag, fragPart) := splitFirst '#' cs
  let fragment := match fragPart with | none => "" | some f => String.mk f
  match getScheme beforeFrag with
  | none => none
  | some (scheme, rest) =>
    if scheme ≠ "" ∧ rest.head? ≠ some '/' then
      let (op, qPart) := splitFirst '?' rest
      some { scheme := scheme, opq := String.mk op, host := "", path := "",
             query := match qPart with | none => "" | some q => String.mk q,
             forceQuery := qPart = some [], fragment := fragment }
    else
      let (rest, host) :=
        match rest with
        | '/' :: '/' :: afterSlashes =>
          let hostCs := afterSlashes.takeWhile (fun c => c ≠ '/' ∧ c ≠ '?')
          (afterSlashes.drop hostCs.length, String.mk hostCs)
        | _ => (rest, "")
      let (pathCs, qPart) := splitFirst '?' rest
      some { scheme := scheme, opq := "", host := host,
             path := String.mk pathCs,
             query := match qPart with | none => "" | some q => String.mk q,
             forceQuery := qPart = some [], fragment := fragment }

/-- `url.URL.String` for the shapes above. -/
def urlString (u : GoURL) : String :=
  (if u.scheme ≠ "" then u.scheme ++ ":" else "")
    ++ (if u.opq ≠ "" then u.opq
        else
          (if (u.scheme ≠ "" ∨ u.host ≠ "") ∧ (u.host ≠ "" ∨ u.path ≠ "") then
            "//" ++ u.host
          else "")
            ++ u.path)
    ++ (if u.forceQuery ∨ u.query ≠ "" then "?" ++ u.query else "")
    ++ (if u.fragment ≠ "" then "#" ++ u.fragment else "")

/-- `url.URL.Hostname` / `url.URL.Port`: split `host` at the last `':'`
when a valid (possibly empty) numeric port follows. -/
def hostPortSplit (host : String) : String × String :=
  let r := host.toList.reverse
  let digitsRev := r.takeWhile (fun c => c ≠ ':')
  match r.drop digitsRev.length with
  | ':' :: restHost =>
    if digitsRev.all (fun c => c.isDigit) then
      (String.mk restHost.reverse, String.mk digitsRev.reverse)
    else (host, "")
  | _ => (host, "")

/-- The segment pass of `net/url`'s `resolvePath`. -/
def dotSegments : List String → List String → List String
  | dst, [] => dst
  | dst, seg :: rest =>
    if seg = "." then dotSegments dst rest
    else if seg = ".." then dotSegments dst.dropLast rest
    else dotSegments (dst ++ [seg]) rest

/-- `resolvePath` (net/url): merge `ref` onto `base` and remove dot
segments, always producing a rooted path. -/
def resolvePath (base ref : String) : String :=
  let full :=
    if ref = "" then base
    else if ¬ strStartsWith ref "/" then
      let cs := base.toList
      let keep := cs.length - (cs.reverse.takeWhile (fun c => c ≠ '/')).length
      String.mk (cs.take keep) ++ ref
    else ref
  if full = "" then ""
  else
    let src := splitOnChar '/' full.toList
    let dst := dotSegments [] src
    let dst :=
      if src.getLast? = some "." ∨ src.getLast? = some ".." then dst ++ [""]
      else dst
    let joined := strJoin "/" dst
    "/" ++ (match joined.toList with | '/' :: restJ => String.mk restJ | _ => joined)

/-- `url.URL.ResolveReference` for a reference with empty scheme (the
only case `urlutil.Resolve` reaches it in). -/
def resolveReference (base ref : GoURL) : GoURL :=
  let u := { ref with scheme := base.scheme }
  if ref.host ≠ "" then { u with path := resolvePath ref.path "" }
  else if ref.opq ≠ "" then { u with host := "", path := "" }
  else
    let u :=
      if ref.path = "" ∧ ¬ ref.forceQuery ∧ ref.query = "" then
        { u with
            query := base.query
            fragment := if ref.fragment = "" then base.fragment else ref.fragment }
      else u
    { u with host := base.host, path := resolvePath base.path ref.path }

/-- `urlutil.Resolve` (internal/urlutil/urlutil.go lines 9–39). -/
def urlResolve (base : GoURL) (href : String) : Option String :=
  let trimmed := strTrim href
  if trimmed = "" then none
  else if strStartsWith trimmed "#" then none
  else
    match urlParse trimmed with
    | none => none
    | some parsed =>
      if parsed.scheme ≠ "" ∧ parsed.scheme ≠ "http" ∧ parsed.scheme ≠ "https" then
        none
      else
        let resolved :=
          if parsed.scheme = "" then resolveReference base parsed else parsed
        let resolved := { resolved with fragment := "" }
        if resolved.scheme ≠ "http" ∧ resolved.scheme ≠ "https" then none
        else some (urlString resolved)

/-- `urlutil.SameOrigin` (internal/urlutil/urlutil.go lines 42–49):
equal scheme and equal host (including any explicit port). -/
def sameOrigin (base : GoURL) (raw : String) : Bool :=
  match urlParse raw with
  | none => false
  | some parsed => parsed.scheme = base.scheme ∧ parsed.host = base.host

/-- `parseRootURL` (README `analyzeReport` file, lines 285–299). -/
def parseRootURL (rawURL : String) : Except String GoURL :=
  match urlParse rawURL with
  | none => .error "missing protocol scheme"
  | some parsed =>
    if parsed.scheme = "" ∨ parsed.host = "" then .error "missing scheme or host"
    else
      let parsed := if parsed.path = "/" then { parsed with path := "" } else parsed
      .ok { parsed with fragment := "" }

/-- `canonicalBrokenURL` (analyzer_internal.go lines 526–565):
fragment dropped, scheme and hostname lowercased, default ports
stripped, a bare `/` path flattened, stale `ForceQuery` cleared. -/
def canonicalBrokenURL (raw : String) : String :=
  if raw = "" then ""
  else
    match urlParse raw with
    | none => raw
    | some parsed =>
      let parsed := { parsed with fragment := "", scheme := strToLower parsed.scheme }
      let hp := hostPortSplit parsed.host
      let host := strToLower hp.1
      let port := hp.2
      let port :=
        if parsed.scheme = "http" ∧ port = "80" then ""
        else if parsed.scheme = "https" ∧ port = "443" then ""
        else port
      let parsed :=
        { parsed with host := if port = "" then host else host ++ ":" ++ port }
      let parsed := if parsed.path = "/" then { parsed with path := "" } else parsed
      let parsed :=
        if parsed.query = "" then { parsed with forceQuery := false } else parsed
      urlString parsed

/-! ## Crawler data model (`part_003`, README `newPage`/`newReport`)

`Page.brokenLinks` and `Page.assets` are `Option (List _)`: Go
distinguishes the nil slice (serialized as `null`) from an empty slice
(serialized as `[]`), and the error-page contract depends on it.
Timestamps (`discoveredAt`, `generatedAt`) are raw clock instants; the
RFC3339 formatting is presentation only. -/

/-- `crawler.SEO`. -/
structure SEO where
  hasTitle : Bool
  title : String
  hasDescription : Bool
  description : String
  hasH1 : Bool
deriving DecidableEq

/-- `crawler.BrokenLink`. -/
structure BrokenLink where
  url : String
  statusCode : Nat
  error : String
deriving DecidableEq

/-- `crawler.Asset`. -/
structure Asset where
  url : String
  type : String
  statusCode : Nat
  sizeBytes : Int
  error : String
deriving DecidableEq

/-- `crawler.Page`. -/
structure Page where
  url : String
  depth : Int
  httpStatus : Nat
  status : String
  error : String
  seo : SEO
  brokenLinks : Option (List BrokenLink)
  assets : Option (List Asset)
  discoveredAt : Int
deriving DecidableEq

/-- `crawler.Report`. -/
structure Report where
  rootURL : String
  depth : Int
  generatedAt : Int
  pages : List Page
deriving DecidableEq

/-- `statusOK` constant. -/
def statusOK : String := "ok"

/-- `statusError` constant. -/
def statusError : String := "error"

/-- `newPage` (README lines 251–263): fresh page with empty status and
empty (non-nil) slices. -/
def newPage (pageURL : String) (depth : Int) (discoveredAt : Int) : Page :=
  { url := pageURL, depth := depth, httpStatus := 0, status := "", error := ""
    seo := ⟨false, "", false, "", false⟩
    brokenLinks := some [], assets := some [], discoveredAt := discoveredAt }

/-- The crawler `Options` fields the embedded code reads.
`httpClientNil` models `HTTPClient == nil`; `clockNow` the instant the
(test) clock returns. -/
structure Options where
  url : String
  depth : Int
  retries : Int
  delay : Int
  rps : Int
  concurrency : Int
  maxConcurrentFetch : Int
  indentJSON : Bool
  httpClientNil : Bool
  clockNow : Int
deriving DecidableEq

/-- `newReport` (README lines 241–248). -/
def newReport (opts : Options) : Report :=
  { rootURL := opts.url, depth := opts.depth, generatedAt := opts.clockNow,
    pages := [] }

/-- `normalizeMaxDepth` (analyzer_internal.go lines 733–739). -/
def normalizeMaxDepth (depth : Int) : Int :=
  if depth < 0 then 0 else depth

/-- `normalizeMaxConcurrentFetch` (analyzer_internal.go lines 428–440). -/
def normalizeMaxConcurrentFetch (opts : Options) : Int :=
  let m := opts.maxConcurrentFetch
  let m := if m ≤ 0 then opts.concurrency else m
  if m < 1 then 1 else m

/-- `linkCheckPoolSize` (analyzer_internal.go lines 442–455). -/
def linkCheckPoolSize (opts : Options) : Int :=
  let m := normalizeMaxConcurrentFetch opts
  let w : Int := 2
  let w := if w > m then m else w
  if w < 1 then 1 else w

/-! ## Page processor (`analyzer_internal.go` lines 332–731)

All network and parser effects are determinized by a `ProcEnv`:
`fetch u` is the `(Result, error)` pair that `fetchWithCache`/`Fetch`
produces for URL `u` during the invocation (write-once per URL by the
single-flight cache, so a function of the URL is the faithful picture),
and `parseHTML body` the outcome of `parser.ParseHTML`.  The context is
not cancelled, so every link-check job is submitted and processed and
each slot of `runLinkChecks`'s `processed` array ends up `true`, and
the per-index result channel reproduces input order.  Errors on this
side of the code are observed only through `Error()` strings, so they
are modelled as `Option String`. -/

/-- `fetcher.Result` as the analyzer consumes it: status code, the
`Content-Length` header (`""` when absent) and the body (`none` models
the nil byte slice). -/
structure FetchRes where
  statusCode : Nat
  contentLength : String
  body : Option String
deriving DecidableEq

/-- `parser.AssetRef`. -/
structure AssetRef where
  url : String
  type : String
deriving DecidableEq

/-- What `parser.ParseHTML` returns. -/
structure ParsedDoc where
  links : List String
  assets : List AssetRef
  seo : SEO
deriving DecidableEq

/-- The determinized environment of one invocation. -/
structure ProcEnv where
  fetch : String → FetchRes × Option String
  parseHTML : Option String → Except String ParsedDoc

/-- `crawlJob` (analyzer_internal.go lines 21–26). -/
structure CrawlJob where
  url : String
  depth : Int
  discoveredAt : Int
  seq : Nat
deriving DecidableEq

/-- `pageResult` (analyzer_internal.go lines 28–33). -/
structure PageResult where
  job : CrawlJob
  page : Page
  links : List String
  err : Option String
deriving DecidableEq

/-- `linkCheck` (analyzer_internal.go lines 35–39). -/
structure LinkCheck where
  broken : Bool
  link : BrokenLink
  url : String
deriving DecidableEq

/-- `errorString` (README lines 368–378). -/
def errorString (err : Option String) (statusCode : Nat) : String :=
  match err with
  | some e => e
  | none => if statusCode ≥ 400 then statusText statusCode else ""

/-- The README copy of `errorForStatus` used by `processJob`, on
string-modelled errors. -/
def errorForStatus (err : Option String) (statusCode : Nat) : Option String :=
  match err with
  | some e => some e
  | none => if statusCode ≥ 400 then some (statusText statusCode) else none

/-- `analyzer.checkBrokenLink` (analyzer_internal.go lines 593–606). -/
def checkBrokenLink (env : ProcEnv) (absoluteURL : String) :
    BrokenLink × Bool :=
  let r := env.fetch absoluteURL
  let broken := r.2.isSome ∨ r.1.statusCode ≥ 400
  if ¬ broken then (⟨"", 0, ""⟩, false)
  else
    (⟨absoluteURL, r.1.statusCode, errorString r.2 r.1.statusCode⟩, true)

/-- `analyzer.runLinkChecks` (analyzer_internal.go lines 395–426) under
an uncancelled context: every resolved URL is submitted to the
link-check pool, each worker answers via `checkBrokenLink`, and the
per-index results mark every slot processed. -/
def runLinkChecks (env : ProcEnv) (resolved : List String) :
    List LinkCheck × List Bool :=
  (resolved.map (fun u =>
      let c := checkBrokenLink env u
      { broken := c.2, link := c.1, url := u }),
    resolved.map (fun _ => true))

/-- The loop of `buildLinkResults` with its `seenBroken` set. -/
def buildLinkResultsAux (seen : List String) :
    List (LinkCheck × Bool) → List BrokenLink × List String
  | [] => ([], [])
  | (res, proc) :: rest =>
    if ¬ proc then buildLinkResultsAux seen rest
    else if res.broken then
      let key := if res.url = "" then res.link.url else res.url
      let key := canonicalBrokenURL key
      if seen.contains key then buildLinkResultsAux seen rest
      else
        let r := buildLinkResultsAux (key :: seen) rest
        ({ res.link with url := key } :: r.1, r.2)
    else
      let r := buildLinkResultsAux seen rest
      (r.1, res.url :: r.2)

/-- `buildLinkResults` (analyzer_internal.go lines 457–495): iterates
over `results[:len(processed)]` after truncating `processed` to
`len(results)` — i.e. over the zip of the two lists. -/
def buildLinkResults (results : List LinkCheck) (processed : List Bool) :
    List BrokenLink × List String :=
  buildLinkResultsAux [] (results.zip processed)

/-- The deduplication loop of `dedupBrokenLinks`. -/
def dedupBrokenLinksAux (seen : List String) :
    List BrokenLink → List BrokenLink
  | [] => []
  | l :: rest =>
    let key := canonicalBrokenURL l.url
    if seen.contains key then dedupBrokenLinksAux seen rest
    else { l with url := key } :: dedupBrokenLinksAux (key :: seen) rest

/-- `dedupBrokenLinks` (analyzer_internal.go lines 497–524), including
the short lists fast path. -/
def dedupBrokenLinks (links : List BrokenLink) : List BrokenLink :=
  if links.length < 2 then
    match links with
    | [l] => [{ l with url := canonicalBrokenURL l.url }]
    | _ => links
  else dedupBrokenLinksAux [] links

/-- The resolution fold of `resolveLinks` with its `seen` set. -/
def resolveLinksAux (base : GoURL) (seen : List String) :
    List String → List String
  | [] => []
  | link :: rest =>
    match urlResolve base link with
    | none => resolveLinksAux base seen rest
    | some absoluteURL =>
      if seen.contains absoluteURL then resolveLinksAux base seen rest
      else absoluteURL :: resolveLinksAux base (absoluteURL :: seen) rest

/-- `analyzer.resolveLinks` (analyzer_internal.go lines 567–591): the
nil result for an unparsable page URL is the empty list (only its
length is ever observed). -/
def resolveLinks (pageURL : String) (links : List String) : List String :=
  match urlParse pageURL with
  | none => []
  | some base => resolveLinksAux base [] links

/-- `analyzer.checkLinks` (analyzer_internal.go lines 384–393). -/
def checkLinks (env : ProcEnv) (job : CrawlJob) (links : List String) :
    List BrokenLink × List String :=
  let resolved := resolveLinks job.url links
  if resolved.length = 0 then ([], [])
  else
    let r := runLinkChecks env resolved
    buildLinkResults r.1 r.2

/-- `assetFetchResult` (analyzer_internal.go lines 63–67). -/
structure AssetFetchResult where
  statusCode : Nat
  sizeBytes : Int
  err : String
deriving DecidableEq

/-- Go `strconv.ParseInt(s, 10, 64)` on the decimal strings handled
here. -/
def parseIntGo (s : String) : Option Int :=
  let digitsVal : List Char → Option Int := fun ds =>
    if ds ≠ [] ∧ ds.all (fun c => c.isDigit) then
      some (ds.foldl (fun n c => n * 10 + (c.toNat - 48)) (0 : Int))
    else none
  match s.toList with
  | '-' :: ds => (digitsVal ds).map (fun n => -n)
  | '+' :: ds => digitsVal ds
  | ds => digitsVal ds

/-- `parseContentLength` (README lines 357–366). -/
def parseContentLength (value : String) : Except String Int :=
  let trimmed := strTrim value
  match parseIntGo trimmed with
  | none => .error ("invalid content length " ++ trimmed)
  | some v =>
    if v < 0 then .error ("invalid content length " ++ trimmed ++ ": negative value")
    else .ok v

/-- `sizeFromResult` (README lines 339–355). -/
def sizeFromResult (result : FetchRes) : Except String Int :=
  if result.contentLength ≠ "" then parseContentLength result.contentLength
  else
    match result.body with
    | none => .error "unable to determine asset size"
    | some b => .ok (b.length : Int)

/-- `fetchAssetResult` (README lines 301–337). -/
def fetchAssetResult (env : ProcEnv) (absoluteURL : String) :
    AssetFetchResult :=
  let r := env.fetch absoluteURL
  let result := r.1
  let fetchResult : AssetFetchResult :=
    { statusCode := result.statusCode, sizeBytes := 0, err := "" }
  let errMsg :=
    match r.2 with
    | some _ => errorString r.2 result.statusCode
    | none => ""
  if r.2.isSome ∧ result.statusCode = 0 then { fetchResult with err := errMsg }
  else
    let sizeRes := sizeFromResult result
    let fetchResult :=
      match sizeRes with
      | .ok v => { fetchResult with sizeBytes := v }
      | .error _ => fetchResult
    let parts :=
      (if result.statusCode ≥ 400 then
        ["http status " ++ toString result.statusCode]
      else [])
      ++ (if errMsg ≠ "" then [errMsg] else [])
      ++ (match sizeRes with | .error e => [e] | .ok _ => [])
    if parts ≠ [] then
      { fetchResult with err := String.intercalate ": " parts }
    else fetchResult

/-- `buildAssetFromResult` (analyzer_internal.go lines 723–731). -/
def buildAssetFromResult (absoluteURL assetType : String)
    (result : AssetFetchResult) : Asset :=
  { url := absoluteURL, type := assetType, statusCode := result.statusCode,
    sizeBytes := result.sizeBytes, error := result.err }

/-- `analyzer.getAsset` (analyzer_internal.go lines 676–721) under an
uncancelled context: the asset cache only shares the write-once
`fetchAssetResult` payload across pages, so the value returned for a
URL is `fetchAssetResult` of that URL. -/
def getAsset (env : ProcEnv) (absoluteURL assetType : String) : Asset :=
  buildAssetFromResult absoluteURL assetType (fetchAssetResult env absoluteURL)

/-- The resolution fold of `collectAssets` with its `seen` set. -/
def collectAssetsAux (env : ProcEnv) (base : GoURL) (seen : List String) :
    List AssetRef → List Asset
  | [] => []
  | assetRef :: rest =>
    match urlResolve base assetRef.url with
    | none => collectAssetsAux env base seen rest
    | some absoluteURL =>
      if seen.contains absoluteURL then collectAssetsAux env base seen rest
      else
        getAsset env absoluteURL assetRef.type ::
          collectAssetsAux env base (absoluteURL :: seen) rest

/-- `analyzer.collectAssets` (analyzer_internal.go lines 648–674). -/
def collectAssets (env : ProcEnv) (pageURL : String)
    (assets : List AssetRef) : List Asset :=
  match urlParse pageURL with
  | none => []
  | some base => collectAssetsAux env base [] assets

/-- `analyzer.processJob` (analyzer_internal.go lines 332–382). -/
def processJob (env : ProcEnv) (job : CrawlJob) : PageResult :=
  let page := newPage job.url job.depth job.discoveredAt
  let r := env.fetch job.url
  let page := { page with httpStatus := r.1.statusCode }
  if r.2.isSome ∨ r.1.statusCode ≥ 400 then
    { job := job
      page := { page with
          status := statusError
          error := errorString r.2 r.1.statusCode
          brokenLinks := none
          assets := none }
      links := []
      err := errorForStatus r.2 r.1.statusCode }
  else
    match env.parseHTML r.1.body with
    | .error parseErr =>
      { job := job
        page := { page with
            status := statusError
            error := "parse html: " ++ parseErr
            brokenLinks := none
            assets := none }
        links := []
        err := some ("parse html: " ++ parseErr) }
    | .ok parsed =>
      let page := { page with status := statusOK, seo := parsed.seo }
      let checked := checkLinks env job parsed.links
      let page :=
        { page with
            brokenLinks := some (dedupBrokenLinks checked.1)
            assets := some (collectAssets env job.url parsed.assets) }
      { job := job, page := page, links := checked.2, err := none }

/-- The URLs `processJob` submits to the link-check pool: on the ok
path `runLinkChecks` feeds exactly the resolved links into
`a.linkCheck.jobs` (analyzer_internal.go lines 405–417); each submitted
job triggers one `fetchWithCache` probe in a pool worker. -/
def processJobSubmitted (env : ProcEnv) (job : CrawlJob) : List String :=
  let r := env.fetch job.url
  if r.2.isSome ∨ r.1.statusCode ≥ 400 then []
  else
    match env.parseHTML r.1.body with
    | .error _ => []
    | .ok parsed => resolveLinks job.url parsed.links

/-! ## Scheduler / aggregator (`analyzer_internal.go` lines 88–330)

The aggregator runs on a single logical thread; its state is passed
explicitly.  The context is not cancelled and the jobs channel is never
full from the aggregator's perspective (workers drain it), so the
channel send in `enqueue` succeeds; `queued` records the jobs sent, in
order. -/

/-- The scheduling state owned by the aggregator. -/
structure AggSt where
  seen : List String
  pending : Int
  queued : List CrawlJob
  nextSeq : Nat
  nextCommit : Nat
  pendingPages : List (Nat × Page)
  pages : List Page
  analysisErr : Option String
deriving DecidableEq

/-- The empty initial aggregator state (analyzer.run, lines 191–203). -/
def aggInit : AggSt :=
  { seen := [], pending := 0, queued := [], nextSeq := 0, nextCommit := 0,
    pendingPages := [], pages := [], analysisErr := none }

/-- `aggregator.enqueue` (analyzer_internal.go lines 261–276). -/
def enqueue (st : AggSt) (job : CrawlJob) : AggSt :=
  if st.seen.contains job.url then st
  else
    { st with
        queued := st.queued ++ [{ job with seq := st.nextSeq }]
        seen := job.url :: st.seen
        nextSeq := st.nextSeq + 1
        pending := st.pending + 1 }

/-- Map lookup in `pendingPages`. -/
def pendingLookup (l : List (Nat × Page)) (k : Nat) : Option Page :=
  match l.find? (fun kv => kv.1 = k) with
  | some kv => some kv.2
  | none => none

/-- Map update (Go map assignment overwrites the key). -/
def pendingInsert (l : List (Nat × Page)) (k : Nat) (p : Page) :
    List (Nat × Page) :=
  (k, p) :: l.filter (fun kv => kv.1 ≠ k)

/-- The body of `flushCommitted`'s loop, with fuel bounded by the size
of `pendingPages` (each committed page leaves the map, so the loop
terminates). -/
def flushAux (st : AggSt) : Nat → AggSt
  | 0 => st
  | fuel + 1 =>
    match pendingLookup st.pendingPages st.nextCommit with
    | none => st
    | some page =>
      flushAux
        { st with
            pages := st.pages ++ [page]
            pendingPages := st.pendingPages.filter (fun kv => kv.1 ≠ st.nextCommit)
            nextCommit := st.nextCommit + 1 }
        fuel

/-- `aggregator.flushCommitted` (analyzer_internal.go lines 319–330). -/
def flushCommitted (st : AggSt) : AggSt :=
  flushAux st st.pendingPages.length

/-- `aggregator.handleResult` (analyzer_internal.go lines 293–317):
commit the page, latch a root error, and — only when `depth+1` is
within budget — enqueue the same-origin candidate links at `depth+1`. -/
def handleResult (baseURL : GoURL) (maxDepth : Int) (now : Int)
    (st : AggSt) (result : PageResult) : AggSt :=
  let st :=
    { st with pendingPages := pendingInsert st.pendingPages result.job.seq result.page }
  let st := flushCommitted st
  let st :=
    if result.job.depth = 0 ∧ result.err.isSome ∧ st.analysisErr = none then
      { st with analysisErr := result.err }
    else st
  let nextDepth := result.job.depth + 1
  if nextDepth > maxDepth then st
  else
    result.links.foldl
      (fun st link =>
        if ¬ sameOrigin baseURL link then st
        else
          enqueue st
            { url := link, depth := nextDepth, discoveredAt := now, seq := 0 })
      st

/-! ## Report assembly (`golden_report_test.go` second document:
`Analyze`, `marshalReport`, `sortPages`; the variant in `part_008`
predates `sortPages` and fails `TestAnalyze_PagesAreSortedByDepthThenURL`,
so the sorted variant is the code under test) -/

/-- The comparator of `sortPages` (`sort.SliceStable` less function):
ascending depth, then ascending URL (Go's bytewise `<`, which equals
the character-wise lexicographic order on UTF-8 strings). -/
def pageLess (a b : Page) : Bool :=
  if a.depth ≠ b.depth then decide (a.depth < b.depth)
  else decide (a.url < b.url)

/-- Stable insertion used to model `sort.SliceStable`: an element is
placed after every earlier element it is not strictly less than. -/
def insertPage (p : Page) : List Page → List Page
  | [] => [p]
  | q :: qs => if pageLess p q then p :: q :: qs else q :: insertPage p qs

/-- `sortPages` as a stable sort by `pageLess`. -/
def sortPages (pages : List Page) : List Page :=
  pages.foldl (fun acc p => insertPage p acc) []

/-- `marshalReport`: the content-affecting part of serialization — the
pages are sorted by `(depth, url)` before the report is marshalled;
`indent` alters whitespace only and is ignored by the content model. -/
def marshalReport (report : Report) (indent : Bool) : Report :=
  { report with pages := sortPages report.pages }

/-! ## `analyzeReport` configuration stage (README lines 192–240)

The crawl itself (constructing the fetcher and running the analyzer) is
abstracted as a continuation `crawl`: the claims about this function
concern only the configuration-error branches, which the continuation
never reaches. -/

/-- `analyzeReport` up to and including its configuration checks. -/
def analyzeReportGo (opts : Options)
    (crawl : GoURL → Report → Report × Option String) :
    Report × Option String :=
  let report := newReport opts
  if opts.url = "" then (report, some "url is required")
  else
    match parseRootURL opts.url with
    | .error e =>
      let page := newPage opts.url 0 opts.clockNow
      let page := { page with status := statusError, error := "invalid url: " ++ e }
      ({ report with pages := report.pages ++ [page] },
        some ("invalid root url: " ++ e))
    | .ok baseURL =>
      let baseURL := { baseURL with fragment := "" }
      let rootURL := urlString baseURL
      let report := { report with rootURL := rootURL }
      if opts.httpClientNil then
        let page := newPage rootURL 0 opts.clockNow
        let page :=
          { page with status := statusError, error := "http client is required" }
        ({ report with pages := report.pages ++ [page] },
          some "http client is required")
      else crawl baseURL report

/-! ## Single-flight fetch cache (`analyzer_internal.go` lines 608–646)

Per absolute URL, the cache entry moves through three phases, and every
interleaving of `fetchWithCache` callers is a path in this transition
system (the mutex makes each labelled step atomic):

* `absent → owned` — lines 623–625: a caller that finds no entry
  inserts a not-yet-ready entry under the lock and becomes the owner;
  a caller that finds an entry becomes a follower of that entry and
  does not touch the map.
* `owned → done v` — lines 640–643: the owner calls the fetcher
  (counted by `fetchCalls`), stores the result into the entry exactly
  once and closes the ready channel.  No transition leaves `done`: the
  entry stays in the map for the rest of the invocation.
* `owned → absent` — lines 627–637: the owner's semaphore acquisition
  fails, it removes the entry from the map **without calling the
  fetcher**, stores the cancellation outcome in the orphaned entry and
  closes its ready channel; a later caller may insert afresh.

`v` is the value the fetcher produces for this URL; followers that
observe the ready signal of the fetched entry read exactly the stored
`v`. -/

/-- Phase of one URL's slot in the fetch cache. -/
inductive CachePhase where
  | absent
  | owned
  | done (stored : FetchRes × Option String)
deriving DecidableEq

/-- State of one URL's slot plus the count of fetcher calls made for
that URL. -/
structure CacheSt where
  phase : CachePhase
  fetchCalls : Nat
deriving DecidableEq

/-- Initial state: no entry, no fetcher call yet. -/
def cacheInit : CacheSt := { phase := .absent, fetchCalls := 0 }

/-- One atomic step of the single-flight protocol for one URL, where
`v` is the fetcher's result for that URL. -/
inductive CacheStep (v : FetchRes × Option String) : CacheSt → CacheSt → Prop
  | insert (n : Nat) :
      CacheStep v ⟨.absent, n⟩ ⟨.owned, n⟩
  | fetch (n : Nat) :
      CacheStep v ⟨.owned, n⟩ ⟨.done v, n + 1⟩
  | cancel (n : Nat) :
      CacheStep v ⟨.owned, n⟩ ⟨.absent, n⟩

/-- Reachability from the initial state. -/
def cacheReachable (v : FetchRes × Option String) (s : CacheSt) : Prop :=
  Relation.ReflTransGen (CacheStep v) cacheInit s

/-- What a follower that awaits the entry's ready signal — and observes
a fetched entry — returns: the stored result (lines 615–617). -/
def followerRead (s : CacheSt) : Option (FetchRes × Option String) :=
  match s.phase with
  | .done stored => some stored
  | _ => none

end Crawl

/-! ### Theorems for the limiter and the backoff -/

namespace Crawl

theorem retryDelayLoop_eq_min (base : Int) :
    ∀ n : Nat, retryDelayLoop base n = min (base * 2 ^ n) maxRetryDelay := by
  intro n
  induction n generalizing base with
  | zero =>
    simp only [retryDelayLoop, pow_zero, mul_one]
    split
    · omega
    · omega
  | succ n ih =>
    simp only [retryDelayLoop]
    split
    · have h2 : (1 : Int) ≤ 2 ^ (n + 1) := one_le_pow₀ (by omega)
      have hmax : (0 : Int) < maxRetryDelay := by decide
      have : maxRetryDelay ≤ base * 2 ^ (n + 1) := by
        calc maxRetryDelay ≤ base := by omega
          _ = base * 1 := by ring
          _ ≤ base * 2 ^ (n + 1) := by
              apply mul_le_mul_of_nonneg_left h2 (by omega)
      omega
    · rw [ih (base * 2)]
      ring_nf

theorem grantsFrom_chain (I t : Int) (nows : List Int) :
    List.Chain (fun a b => a + I ≤ b) t (grantsFrom ⟨I, some t⟩ nows) := by
  induction nows generalizing t with
  | nil => simp [grantsFrom]
  | cons now nows ih =>
    by_cases h : now < t + I
    · simp only [grantsFrom, limiterWait, h, if_true]
      exact List.Chain.cons (le_refl _) (ih (t + I))
    · simp only [grantsFrom, limiterWait, h, if_false]
      exact List.Chain.cons (by omega) (ih now)

/-- **C7 counterexample.**  The claim states the backoff base is 100 ms
for *every* configuration, but `analyzeReport` passes `opts.Delay` to
`fetcher.New` as the retry delay: with `Delay = 1s` the first retry
sleeps 1 s, not `min(100ms · 2^0, 2s) = 100ms`. -/
theorem C7_backoff_base_not_always_100ms :
    retryDelayFor (newRetryDelay 1000000000) 1 = 1000000000 ∧
      min (baseRetryDelay * 2 ^ (1 - 1)) maxRetryDelay = 100000000 ∧
      (100000000 : Int) ≠ 1000000000 := by
  refine ⟨by decide, by decide, by decide⟩

/-- **C7 (amended).**  For every configured `Delay` and every retry
number `n ≥ 1`, the backoff slept before the n-th retry equals
`min(base · 2^(n−1), 2s)` where `base` is the configured `Delay` when
positive and 100 ms otherwise (the normalization in `fetcher.New`); in
particular with the default base the spec's formula
`min(100ms · 2^(n−1), 2s)` holds. -/
theorem C7_backoff_formula (d : Int) (n : Nat) (h : 1 ≤ n) :
    retryDelayFor (newRetryDelay d) n
      = min (newRetryDelay d * 2 ^ (n - 1)) maxRetryDelay ∧
    (d ≤ 0 → newRetryDelay d = baseRetryDelay) := by
  constructor
  · unfold retryDelayFor
    have hn : ¬ n < 1 := by omega
    simp only [hn, if_false]
    exact retryDelayLoop_eq_min _ _
  · intro hd
    simp [newRetryDelay, hd]

/-- Witness for `C7_backoff_formula` at `Delay = 0`, `n = 6`:
`min(100ms · 2^5, 2s) = 2s`. -/
theorem C7_backoff_formula_witness :
    retryDelayFor (newRetryDelay 0) 6 = 2000000000 := by
  have h := (C7_backoff_formula 0 6 (by omega)).1
  rw [h]
  decide

/-- **C8.**  The rate limiter's `Wait`: the first call records `now` as
the last grant time and returns immediately; a waiter that finds
`now < last + interval` reserves `last = next` before sleeping exactly
the difference; otherwise it sets `last = now` and returns immediately;
and along every sequence of `Wait` calls on a fresh limiter, each pair
of successive grants is separated by at least the configured
interval. -/
theorem C8_limiter_wait_spacing :
    (∀ (l : Limiter) (now : Int), l.last = none →
        limiterWait l now = ⟨{ l with last := some now }, 0, now⟩) ∧
    (∀ (l : Limiter) (last now : Int), l.last = some last →
        now < last + l.interval →
        limiterWait l now = ⟨{ l with last := some (last + l.interval) },
          last + l.interval - now, last + l.interval⟩) ∧
    (∀ (l : Limiter) (last now : Int), l.last = some last →
        ¬ now < last + l.interval →
        limiterWait l now = ⟨{ l with last := some now }, 0, now⟩) ∧
    (∀ (I : Int) (nows : List Int),
        List.Chain' (fun a b => a + I ≤ b) (grantsFrom ⟨I, none⟩ nows)) := by
  refine ⟨?_, ?_, ?_, ?_⟩
  · intro l now h
    simp [limiterWait, h]
  · intro l last now h hlt
    simp [limiterWait, h, hlt]
  · intro l last now h hge
    simp [limiterWait, h, hge]
  · intro I nows
    cases nows with
    | nil => simp [grantsFrom]
    | cons now nows =>
      have h := grantsFrom_chain I now nows
      simp only [grantsFrom, limiterWait]
      exact h

theorem fetchAux_attemptsUsed_le (env : Nat → AttemptOutcome)
    (ctxE slpE : Nat → Option GoErr) :
    ∀ (remaining attempt : Nat),
      (fetchAux env ctxE slpE attempt remaining).attemptsUsed ≤ attempt + remaining := by
  intro remaining
  induction remaining with
  | zero => intro attempt; simp [fetchAux]
  | succ remaining ih =>
    intro attempt
    have h := ih (attempt + 1)
    simp only [fetchAux]
    split
    · split <;> (dsimp only; omega)
    · split
      · dsimp only; omega
      · split
        · dsimp only; omega
        · split
          · dsimp only; omega
          · omega

theorem fetchAux_attemptsUsed_ge (env : Nat → AttemptOutcome)
    (ctxE slpE : Nat → Option GoErr) :
    ∀ (remaining attempt : Nat),
      attempt ≤ (fetchAux env ctxE slpE attempt remaining).attemptsUsed := by
  intro remaining
  induction remaining with
  | zero => intro attempt; simp [fetchAux]
  | succ remaining ih =>
    intro attempt
    have h := ih (attempt + 1)
    simp only [fetchAux]
    split
    · split <;> (dsimp only; omega)
    · split
      · dsimp only; omega
      · split
        · dsimp only; omega
        · split
          · dsimp only; omega
          · omega

theorem fetchAux_attemptsUsed_ge_succ (env : Nat → AttemptOutcome)
    (ctxE slpE : Nat → Option GoErr) (remaining attempt : Nat)
    (h1 : 1 ≤ remaining) :
    attempt + 1 ≤ (fetchAux env ctxE slpE attempt remaining).attemptsUsed := by
  cases remaining with
  | zero => omega
  | succ remaining =>
    have h := fetchAux_attemptsUsed_ge env ctxE slpE remaining (attempt + 1)
    simp only [fetchAux]
    split
    · split <;> (dsimp only; omega)
    · split
      · dsimp only; omega
      · split
        · dsimp only; omega
        · split
          · dsimp only; omega
          · omega

theorem fetchAux_last_result (env : Nat → AttemptOutcome)
    (ctxE slpE : Nat → Option GoErr)
    (hc : ∀ n, ctxE n = none) (hs : ∀ n, slpE n = none)
    (hr : ∀ n, ((env n).err ≠ none ∨ (env n).statusCode ≥ 400) ∧
      isRetryable (env n).statusCode (env n).err = true) :
    ∀ (remaining attempt : Nat),
      fetchAux env ctxE slpE attempt (remaining + 1)
        = { statusCode := (env (attempt + remaining)).statusCode,
            err := errorForStatusE (env (attempt + remaining)).err
              (env (attempt + remaining)).statusCode,
            attemptsUsed := attempt + remaining + 1 } := by
  intro remaining
  induction remaining with
  | zero =>
    intro attempt
    have hra := hr attempt
    simp only [fetchAux, hc attempt]
    have hfail : ¬ ((env attempt).err = none ∧ (env attempt).statusCode < 400) := by
      rcases hra.1 with h | h
      · exact fun hcontra => h hcontra.1
      · omega
    simp [hfail]
  | succ remaining ih =>
    intro attempt
    have hra := hr attempt
    have hfail : ¬ ((env attempt).err = none ∧ (env attempt).statusCode < 400) := by
      rcases hra.1 with h | h
      · exact fun hcontra => h hcontra.1
      · omega
    have hidx : attempt + (remaining + 1) = attempt + 1 + remaining := by omega
    rw [hidx, ← ih (attempt + 1)]
    simp [fetchAux, hfail, hc attempt, hs attempt, hra.2]

/-- **C6.**  The retry policy of `Fetcher.Fetch`: at most `retries + 1`
attempts; an attempt with no error and status < 400 succeeds and ends
the loop; when the first outcome is non-retryable (any other 4xx,
invalid request, unsupported scheme, context cancellation) the loop
stops after one attempt; a retryable first outcome (429, 5xx,
network-class error) with retries left leads to a second attempt; when
every attempt fails retryably, the result of the last attempt is
returned even though it is an error.  The classification facts cover
429, 5xx, other 4xx, network errors nested in `*url.Error` wrappers,
read-body truncation, unsupported scheme, invalid request and context
cancellation. -/
theorem C6_fetch_retry_policy :
    (∀ (retries : Nat) (env : Nat → AttemptOutcome) (c s : Nat → Option GoErr),
        (fetchGo retries env c s).attemptsUsed ≤ retries + 1) ∧
    (∀ (retries : Nat) (env : Nat → AttemptOutcome) (c s : Nat → Option GoErr),
        (env 0).err = none → (env 0).statusCode < 400 → c 0 = none →
        fetchGo retries env c s = ⟨(env 0).statusCode, none, 1⟩) ∧
    (∀ (retries : Nat) (env : Nat → AttemptOutcome) (c s : Nat → Option GoErr),
        c 0 = none → isRetryable (env 0).statusCode (env 0).err = false →
        fetchGo retries env c s
          = ⟨(env 0).statusCode,
              errorForStatusE (env 0).err (env 0).statusCode, 1⟩) ∧
    (∀ (retries : Nat) (env : Nat → AttemptOutcome) (c s : Nat → Option GoErr),
        1 ≤ retries → c 0 = none → s 0 = none →
        ((env 0).err ≠ none ∨ (env 0).statusCode ≥ 400) →
        isRetryable (env 0).statusCode (env 0).err = true →
        2 ≤ (fetchGo retries env c s).attemptsUsed) ∧
    (∀ (retries : Nat) (env : Nat → AttemptOutcome) (c s : Nat → Option GoErr),
        (∀ n, c n = none) → (∀ n, s n = none) →
        (∀ n, ((env n).err ≠ none ∨ (env n).statusCode ≥ 400) ∧
          isRetryable (env n).statusCode (env n).err = true) →
        fetchGo retries env c s
          = ⟨(env retries).statusCode,
              errorForStatusE (env retries).err (env retries).statusCode,
              retries + 1⟩) ∧
    (isRetryable 429 none = true ∧
      (∀ st, 500 ≤ st → isRetryable st none = true) ∧
      (∀ st, st < 429 → isRetryable st none = false) ∧
      (∀ st, 429 < st → st < 500 → isRetryable st none = false) ∧
      isRetryableError (.urlErr .netErr) = true ∧
      isRetryableError (.readBody .unexpectedEOF) = true ∧
      isRetryableError (.urlErr (.other "unsupported protocol scheme")) = false ∧
      isRetryableError .invalidRequest = false ∧
      isRetryableError .ctxCanceled = false ∧
      isRetryableError (.urlErr .ctxDeadline) = false) := by
  refine ⟨?_, ?_, ?_, ?_, ?_, ?_⟩
  · intro retries env c s
    have h := fetchAux_attemptsUsed_le env c s (retries + 1) 0
    simpa [fetchGo] using h
  · intro retries env c s herr hst hc
    simp [fetchGo, fetchAux, herr, hst, hc]
  · intro retries env c s hc hnr
    by_cases hok : (env 0).err = none ∧ (env 0).statusCode < 400
    · simp [fetchGo, fetchAux, hok.1, hok.2, hc, errorForStatusE, hok,
        Nat.not_le_of_lt hok.2]
    · simp [fetchGo, fetchAux, hok, hc, hnr]
  · intro retries env c s hret hc hs hfail hretry
    have hok : ¬ ((env 0).err = none ∧ (env 0).statusCode < 400) := by
      rcases hfail with h | h
      · exact fun hcontra => h hcontra.1
      · omega
    have hcond : ¬ (isRetryable (env 0).statusCode (env 0).err = false ∨ retries = 0) := by
      simp [hretry]
      omega
    have hge := fetchAux_attemptsUsed_ge_succ env c s retries 1 hret
    simp only [fetchGo, fetchAux, hok, if_false, hc, hs, hcond, zero_add]
    omega
  · intro retries env c s hc hs hr
    have h := fetchAux_last_result env c s hc hs hr retries 0
    simpa [fetchGo] using h
  · refine ⟨by decide, ?_, ?_, ?_, by decide, by decide, by decide, by decide,
      by decide, by decide⟩
    · intro st h
      simp only [isRetryable]
      split
      · rfl
      · simp; omega
    · intro st h
      have h1 : ¬ st = 429 := by omega
      simp only [isRetryable, h1, if_false]
      simp; omega
    · intro st h1 h2
      have h3 : ¬ st = 429 := by omega
      simp only [isRetryable, h3, if_false]
      simp; omega

/-- Witness for `C6_fetch_retry_policy`: with one retry and every
attempt answering 500, the loop makes both attempts and returns the
final 500 with its status-text error. -/
theorem C6_fetch_retry_policy_witness :
    fetchGo 1 (fun _ => ⟨500, none⟩) (fun _ => none) (fun _ => none)
      = ⟨500, some (.other "Internal Server Error"), 2⟩ := by
  have h := C6_fetch_retry_policy.2.2.2.2.1 1 (fun _ => ⟨500, none⟩)
    (fun _ => none) (fun _ => none) (fun _ => rfl) (fun _ => rfl)
    (by
      intro n
      constructor
      · right
        show (500 : Nat) ≥ 400
        decide
      · show isRetryable 500 none = true
        decide)
  rw [h]
  decide

/-! ### Report ordering (C4) -/

/-- The ordering the spec claims for the emitted pages: ascending
depth, then ascending URL within equal depth. -/
def pageOrdered (a b : Page) : Prop :=
  a.depth < b.depth ∨ (a.depth = b.depth ∧ a.url ≤ b.url)

theorem pageOrdered_of_pageLess {a b : Page} (h : pageLess a b = true) :
    pageOrdered a b := by
  unfold pageLess at h
  split at h
  · exact Or.inl (of_decide_eq_true h)
  · rename_i hd
    have hd : a.depth = b.depth := by omega
    exact Or.inr ⟨hd, le_of_lt (of_decide_eq_true h)⟩

theorem pageOrdered_of_not_pageLess {a b : Page} (h : pageLess a b = false) :
    pageOrdered b a := by
  unfold pageLess at h
  split at h
  · rename_i hd
    have h1 : ¬ a.depth < b.depth := of_decide_eq_false h
    exact Or.inl (by omega)
  · rename_i hd
    have hd : a.depth = b.depth := by omega
    exact Or.inr ⟨hd.symm, not_lt.mp (of_decide_eq_false h)⟩

theorem pageOrdered_trans {a b c : Page} (hab : pageOrdered a b)
    (hbc : pageOrdered b c) : pageOrdered a c := by
  rcases hab with hab | ⟨hab, hab2⟩ <;> rcases hbc with hbc | ⟨hbc, hbc2⟩
  · exact Or.inl (hab.trans hbc)
  · exact Or.inl (hbc ▸ hab)
  · exact Or.inl (hab ▸ hbc)
  · exact Or.inr ⟨hab.trans hbc, hab2.trans hbc2⟩

theorem mem_insertPage {x p : Page} : ∀ {l : List Page},
    x ∈ insertPage p l → x = p ∨ x ∈ l := by
  intro l
  induction l with
  | nil => intro h; simpa [insertPage] using h
  | cons q qs ih =>
    intro h
    simp only [insertPage] at h
    split at h
    · rcases List.mem_cons.mp h with h | h
      · exact Or.inl h
      · exact Or.inr h
    · rcases List.mem_cons.mp h with h | h
      · exact Or.inr (h ▸ List.mem_cons_self q qs)
      · rcases ih h with h | h
        · exact Or.inl h
        · exact Or.inr (List.mem_cons_of_mem q h)

theorem pairwise_insertPage {p : Page} : ∀ {l : List Page},
    l.Pairwise pageOrdered → (insertPage p l).Pairwise pageOrdered := by
  intro l
  induction l with
  | nil => intro _; simp [insertPage]
  | cons q qs ih =>
    intro h
    rcases List.pairwise_cons.mp h with ⟨hq, hqs⟩
    simp only [insertPage]
    split
    · rename_i hless
      refine List.pairwise_cons.mpr ⟨?_, h⟩
      intro x hx
      rcases List.mem_cons.mp hx with hx | hx
      · exact hx ▸ pageOrdered_of_pageLess hless
      · exact pageOrdered_trans (pageOrdered_of_pageLess hless) (hq x hx)
    · rename_i hless
      refine List.pairwise_cons.mpr ⟨?_, ih hqs⟩
      intro x hx
      rcases mem_insertPage hx with hx | hx
      · exact hx ▸ pageOrdered_of_not_pageLess (Bool.not_eq_true _ ▸ eq_false_of_ne_true hless)
      · exact hq x hx

theorem pairwise_sortPages_aux :
    ∀ (l : List Page) (acc : List Page), acc.Pairwise pageOrdered →
      (l.foldl (fun acc p => insertPage p acc) acc).Pairwise pageOrdered := by
  intro l
  induction l with
  | nil => intro acc h; simpa using h
  | cons p ps ih =>
    intro acc h
    simpa using ih (insertPage p acc) (pairwise_insertPage h)

/-- **C4.**  In every emitted report the pages list is sorted first by
ascending depth and then, within equal depth, by ascending URL in
(bytewise) lexicographic order: `marshalReport` sorts the pages with
`sortPages` before serializing. -/
theorem C4_pages_sorted_depth_then_url (report : Report) (indent : Bool) :
    ((marshalReport report indent).pages).Pairwise pageOrdered := by
  unfold marshalReport sortPages
  exact pairwise_sortPages_aux report.pages [] (by simp)

/-! ### Single-flight fetch cache (C2) -/

theorem cache_inv (v : FetchRes × Option String) (s : CacheSt)
    (h : cacheReachable v s) :
    (s.fetchCalls = 0 ∧ (s.phase = .absent ∨ s.phase = .owned)) ∨
      (s.fetchCalls = 1 ∧ s.phase = .done v) := by
  induction h with
  | refl => exact Or.inl ⟨rfl, Or.inl rfl⟩
  | tail hab hbc ih =>
    cases hbc with
    | insert n =>
      rcases ih with ⟨h1, _⟩ | ⟨_, h2⟩
      · exact Or.inl ⟨h1, Or.inr rfl⟩
      · exact absurd h2 (by simp)
    | fetch n =>
      rcases ih with ⟨h1, _⟩ | ⟨_, h2⟩
      · refine Or.inr ⟨?_, rfl⟩
        simp only at h1 ⊢
        omega
      · exact absurd h2 (by simp)
    | cancel n =>
      rcases ih with ⟨h1, _⟩ | ⟨_, h2⟩
      · exact Or.inl ⟨h1, Or.inl rfl⟩
      · exact absurd h2 (by simp)

/-- **C2.**  Single flight: along every interleaving of
`fetchWithCache` callers for a URL (every reachable state of the
per-URL cache protocol), the underlying fetcher has been invoked at
most once, and a follower that awaits the entry's ready signal and
observes a fetched entry reads exactly the result and error the first
caller stored — the fetcher's value `v` — which also certifies that at
that point exactly one fetch happened. -/
theorem C2_single_flight_cache (v : FetchRes × Option String) (s : CacheSt)
    (h : cacheReachable v s) :
    s.fetchCalls ≤ 1 ∧
      (∀ stored, followerRead s = some stored →
        stored = v ∧ s.fetchCalls = 1) := by
  have hinv := cache_inv v s h
  rcases hinv with ⟨h1, h2⟩ | ⟨h1, h2⟩
  · refine ⟨by omega, ?_⟩
    intro stored hs
    rcases h2 with h2 | h2 <;> simp [followerRead, h2] at hs
  · refine ⟨by omega, ?_⟩
    intro stored hs
    simp only [followerRead, h2] at hs
    exact ⟨by simpa using hs.symm, h1⟩

/-- Witness for `C2_single_flight_cache`: the trace insert-then-fetch
for a concrete fetcher value reaches the fetched state with exactly one
fetcher call, and a follower reads the stored value. -/
theorem C2_single_flight_cache_witness :
    followerRead ⟨.done (⟨200, "", some ""⟩, none), 1⟩
        = some (⟨200, "", some ""⟩, none) ∧
      (⟨.done (⟨200, "", some ""⟩, none), 1⟩ : CacheSt).fetchCalls ≤ 1 := by
  have h : cacheReachable (⟨200, "", some ""⟩, none)
      ⟨.done (⟨200, "", some ""⟩, none), 1⟩ :=
    Relation.ReflTransGen.tail
      (Relation.ReflTransGen.single (CacheStep.insert 0)) (CacheStep.fetch 0)
  exact ⟨rfl, (C2_single_flight_cache _ _ h).1⟩

/-! ### Negative configured depth (C10) -/

theorem flushAux_frame : ∀ (fuel : Nat) (st : AggSt),
    (flushAux st fuel).queued = st.queued ∧
    (flushAux st fuel).pending = st.pending ∧
    (flushAux st fuel).seen = st.seen ∧
    (flushAux st fuel).nextSeq = st.nextSeq ∧
    (flushAux st fuel).analysisErr = st.analysisErr := by
  intro fuel
  induction fuel with
  | zero => intro st; simp [flushAux]
  | succ fuel ih =>
    intro st
    simp only [flushAux]
    split
    · simp
    · exact ih _

/-- **C10.**  A negative configured `Depth` is normalized to a maximum
depth of 0, so `handleResult` never enqueues a child job (every job's
depth is non-negative, hence `depth + 1 > 0`): only the root page is
processed.  The report still echoes the configured negative depth
unchanged in its `depth` field. -/
theorem C10_negative_depth_behaves_as_zero (opts : Options)
    (h : opts.depth < 0) :
    normalizeMaxDepth opts.depth = 0 ∧
    (newReport opts).depth = opts.depth ∧
    (∀ (baseURL : GoURL) (now : Int) (st : AggSt) (result : PageResult),
      0 ≤ result.job.depth →
      (handleResult baseURL (normalizeMaxDepth opts.depth) now st result).queued
          = st.queued ∧
        (handleResult baseURL (normalizeMaxDepth opts.depth) now st result).pending
          = st.pending ∧
        (handleResult baseURL (normalizeMaxDepth opts.depth) now st result).seen
          = st.seen ∧
        (handleResult baseURL (normalizeMaxDepth opts.depth) now st result).nextSeq
          = st.nextSeq) := by
  have hz : normalizeMaxDepth opts.depth = 0 := by
    simp [normalizeMaxDepth, h]
  refine ⟨hz, rfl, ?_⟩
  intro baseURL now st result hd
  rw [hz]
  unfold handleResult
  have hgate : result.job.depth + 1 > 0 := by omega
  simp only [hgate, if_true]
  have hf := flushAux_frame
    (pendingInsert st.pendingPages result.job.seq result.page).length
    { st with pendingPages := pendingInsert st.pendingPages result.job.seq result.page }
  split <;> simp_all [flushCommitted]

/-- Witness for `C10_negative_depth_behaves_as_zero` at `Depth = -1`
with a concrete result carrying a same-origin candidate link. -/
theorem C10_negative_depth_witness :
    normalizeMaxDepth (-1) = 0 ∧
      (handleResult ⟨"https", "", "example.com", "", "", false, ""⟩
          (normalizeMaxDepth (-1)) 0 aggInit
          ⟨⟨"https://example.com", 0, 0, 0⟩,
            newPage "https://example.com" 0 0,
            ["https://example.com/a"], none⟩).queued = aggInit.queued := by
  have h := C10_negative_depth_behaves_as_zero
    ⟨"https://example.com", -1, 0, 0, 0, 1, 0, false, false, 0⟩ (by decide)
  exact ⟨h.1,
    (h.2.2 ⟨"https", "", "example.com", "", "", false, ""⟩ 0 aggInit
      ⟨⟨"https://example.com", 0, 0, 0⟩, newPage "https://example.com" 0 0,
        ["https://example.com/a"], none⟩ (by decide)).1⟩

/-! ### Configuration errors (C9) -/

/-- **C9 counterexample.**  The claim says *every* configuration error
yields a report with a single error-Page describing the root, but for a
missing URL `analyzeReport` returns before appending any page: the
invocation errors with an empty pages list. -/
theorem C9_missing_url_has_no_error_page :
    (analyzeReportGo
        ⟨"", 1, 0, 0, 0, 1, 0, false, false, 0⟩
        (fun _ r => (r, none))).2 = some "url is required" ∧
      (analyzeReportGo
        ⟨"", 1, 0, 0, 0, 1, 0, false, false, 0⟩
        (fun _ r => (r, none))).1.pages = [] := by
  exact ⟨rfl, rfl⟩

/-- **C9 (amended).**  For an invalid root URL or a missing HTTP client
the invocation returns an error and the report contains a single
error-Page describing the root; for a missing URL the invocation
returns an error with an *empty* pages list.  In all three
configuration-error cases the report is produced. -/
theorem C9_config_errors (opts : Options)
    (crawl : GoURL → Report → Report × Option String) :
    (opts.url = "" →
      analyzeReportGo opts crawl = (newReport opts, some "url is required") ∧
        (newReport opts).pages = []) ∧
    (∀ e, parseRootURL opts.url = .error e → opts.url ≠ "" →
      (analyzeReportGo opts crawl).2 = some ("invalid root url: " ++ e) ∧
        ∃ p, (analyzeReportGo opts crawl).1.pages = [p] ∧
          p.status = statusError ∧ p.url = opts.url ∧
          p.error = "invalid url: " ++ e) ∧
    (∀ u, parseRootURL opts.url = .ok u → opts.url ≠ "" →
      opts.httpClientNil = true →
      (analyzeReportGo opts crawl).2 = some "http client is required" ∧
        ∃ p, (analyzeReportGo opts crawl).1.pages = [p] ∧
          p.status = statusError ∧
          p.url = urlString { u with fragment := "" } ∧
          p.error = "http client is required") := by
  refine ⟨?_, ?_, ?_⟩
  · intro hurl
    simp [analyzeReportGo, hurl, newReport]
  · intro e he hurl
    unfold analyzeReportGo
    rw [if_neg hurl, he]
    exact ⟨rfl, _, rfl, rfl, rfl, rfl⟩
  · intro u hu hurl hnil
    unfold analyzeReportGo
    rw [if_neg hurl, hu]
    dsimp only
    rw [if_pos hnil]
    exact ⟨rfl, _, rfl, rfl, rfl, rfl⟩

/-- Witness for `C9_config_errors`: the missing-HTTP-client case with a
valid root URL produces the error and a single error-Page for the
canonical root. -/
theorem C9_config_errors_witness :
    (analyzeReportGo
        ⟨"https://example.com", 1, 0, 0, 0, 1, 0, false, true, 0⟩
        (fun _ r => (r, none))).2 = some "http client is required" ∧
      ∃ p, (analyzeReportGo
          ⟨"https://example.com", 1, 0, 0, 0, 1, 0, false, true, 0⟩
          (fun _ r => (r, none))).1.pages = [p] ∧
        p.status = statusError ∧
        p.url = urlString { (⟨"https", "", "example.com", "", "", false, ""⟩ : GoURL)
            with fragment := "" } ∧
        p.error = "http client is required" := by
  exact (C9_config_errors
      ⟨"https://example.com", 1, 0, 0, 0, 1, 0, false, true, 0⟩
      (fun _ r => (r, none))).2.2
    ⟨"https", "", "example.com", "", "", false, ""⟩ (by rfl) (by decide) rfl

/-! ### Page status/collections invariants (C3) -/

/-- **C3 counterexample.**  The claim bounds `http_status` of ok pages
below by 200, but `processJob` only checks `status < 400`: a transport
answering 101 (Switching Protocols — which `http.Client.Do` returns to
the caller) with a parsable body yields an ok page with
`http_status = 101`, outside `[200, 399]`. -/
theorem C3_ok_page_with_status_101 :
    (processJob ⟨fun _ => (⟨101, "", some ""⟩, none),
        fun _ => .ok ⟨[], [], ⟨false, "", false, "", false⟩⟩⟩
      ⟨"https://example.com", 0, 0, 0⟩).page.status = statusOK ∧
    (processJob ⟨fun _ => (⟨101, "", some ""⟩, none),
        fun _ => .ok ⟨[], [], ⟨false, "", false, "", false⟩⟩⟩
      ⟨"https://example.com", 0, 0, 0⟩).page.httpStatus = 101 ∧
    ¬ (200 ≤ (processJob ⟨fun _ => (⟨101, "", some ""⟩, none),
        fun _ => .ok ⟨[], [], ⟨false, "", false, "", false⟩⟩⟩
      ⟨"https://example.com", 0, 0, 0⟩).page.httpStatus) := by
  refine ⟨by decide, by decide, by decide⟩

/-- **C3 (amended).**  Every page of an emitted report is produced in
one of two places: committed by the aggregator from a `processJob`
result (`analyzer.run`/`handleResult`/`flushCommitted` append nothing
else), or appended directly by a configuration-error branch of
`analyzeReport`.  For every page `processJob` emits: `status` is `ok`
iff the fetch returned without error with status < 400 and the body
parsed; an ok page has `http_status < 400` (not necessarily ≥ 200) and
non-null `broken_links` and `assets`; an error page has both
collections null; and the status is always `ok` or `error`.  The
configuration-error pages (invalid root URL, missing HTTP client) are
error pages whose `broken_links` and `assets` are instead *empty
non-null* lists (the `newPage` slices, serialized as `[]`), not the
null list. -/
theorem C3_page_status_invariants (env : ProcEnv) (job : CrawlJob)
    (opts : Options) (crawl : GoURL → Report → Report × Option String) :
    (((processJob env job).page.status = statusOK ↔
      ((env.fetch job.url).2 = none ∧ (env.fetch job.url).1.statusCode < 400 ∧
        (env.parseHTML (env.fetch job.url).1.body).isOk = true)) ∧
    ((processJob env job).page.status = statusOK →
      (processJob env job).page.httpStatus < 400 ∧
        (processJob env job).page.brokenLinks ≠ none ∧
        (processJob env job).page.assets ≠ none) ∧
    ((processJob env job).page.status = statusError →
      (processJob env job).page.brokenLinks = none ∧
        (processJob env job).page.assets = none) ∧
    ((processJob env job).page.status = statusOK ∨
      (processJob env job).page.status = statusError)) ∧
    (∀ e, parseRootURL opts.url = .error e → opts.url ≠ "" →
      ∃ p, (analyzeReportGo opts crawl).1.pages = [p] ∧
        p.status = statusError ∧
        p.brokenLinks = some [] ∧ p.assets = some []) ∧
    (∀ u, parseRootURL opts.url = .ok u → opts.url ≠ "" →
      opts.httpClientNil = true →
      ∃ p, (analyzeReportGo opts crawl).1.pages = [p] ∧
        p.status = statusError ∧
        p.brokenLinks = some [] ∧ p.assets = some []) := by
  refine ⟨?_, ?_, ?_⟩
  case refine_2 =>
    intro e he hurl
    unfold analyzeReportGo
    rw [if_neg hurl, he]
    exact ⟨_, rfl, rfl, rfl, rfl⟩
  case refine_3 =>
    intro u hu hurl hnil
    unfold analyzeReportGo
    rw [if_neg hurl, hu]
    dsimp only
    rw [if_pos hnil]
    exact ⟨_, rfl, rfl, rfl, rfl⟩
  by_cases hfail : (env.fetch job.url).2.isSome ∨ (env.fetch job.url).1.statusCode ≥ 400
  · have hstat : (processJob env job).page.status = statusError := by
      simp only [processJob, hfail, if_true]
    have hbl : (processJob env job).page.brokenLinks = none := by
      simp only [processJob, hfail, if_true]
    have has : (processJob env job).page.assets = none := by
      simp only [processJob, hfail, if_true]
    refine ⟨?_, ?_, ?_, Or.inr hstat⟩
    · rw [hstat]
      constructor
      · intro h; exact absurd h (by decide)
      · rintro ⟨h1, h2, _⟩
        rcases hfail with h | h
        · rw [h1] at h; exact absurd h (by decide)
        · omega
    · intro h
      rw [hstat] at h
      exact absurd h (by decide)
    · intro _; exact ⟨hbl, has⟩
  · have h2none : (env.fetch job.url).2 = none := by
      rcases h : (env.fetch job.url).2 with _ | v
      · rfl
      · exact absurd (Or.inl (by simp [h])) hfail
    have hlt : (env.fetch job.url).1.statusCode < 400 := by
      by_contra hge
      exact hfail (Or.inr (by omega))
    rcases hp : env.parseHTML (env.fetch job.url).1.body with e | parsed
    · have hstat : (processJob env job).page.status = statusError := by
        simp only [processJob, hfail, if_false, hp]
      have hbl : (processJob env job).page.brokenLinks = none := by
        simp only [processJob, hfail, if_false, hp]
      have has : (processJob env job).page.assets = none := by
        simp only [processJob, hfail, if_false, hp]
      refine ⟨?_, ?_, ?_, Or.inr hstat⟩
      · rw [hstat]
        constructor
        · intro h; exact absurd h (by decide)
        · rintro ⟨_, _, hok⟩
          simp [Except.isOk, Except.toBool] at hok
      · intro h
        rw [hstat] at h
        exact absurd h (by decide)
      · intro _; exact ⟨hbl, has⟩
    · have hstat : (processJob env job).page.status = statusOK := by
        simp only [processJob, hfail, if_false, hp]
      have hhttp : (processJob env job).page.httpStatus
          = (env.fetch job.url).1.statusCode := by
        simp only [processJob, hfail, if_false, hp, newPage]
      have hbl : (processJob env job).page.brokenLinks
          = some (dedupBrokenLinks (checkLinks env job parsed.links).1) := by
        simp only [processJob, hfail, if_false, hp]
      have has : (processJob env job).page.assets
          = some (collectAssets env job.url parsed.assets) := by
        simp only [processJob, hfail, if_false, hp]
      refine ⟨?_, ?_, ?_, Or.inl hstat⟩
      · rw [hstat]
        exact iff_of_true rfl ⟨h2none, hlt, rfl⟩
      · intro _
        exact ⟨hhttp ▸ hlt, by rw [hbl]; simp, by rw [has]; simp⟩
      · intro h
        rw [hstat] at h
        exact absurd h (by decide)

/-- Witness for `C3_page_status_invariants`: a 200 fetch with a
parsable body yields an ok page whose collections are non-null, and a
missing-client configuration yields a single error page whose
collections are empty non-null lists. -/
theorem C3_page_status_invariants_witness :
    (processJob ⟨fun _ => (⟨200, "", some "b"⟩, none),
        fun _ => .ok ⟨[], [], ⟨false, "", false, "", false⟩⟩⟩
      ⟨"https://example.com", 0, 0, 0⟩).page.status = statusOK ∧
    (processJob ⟨fun _ => (⟨200, "", some "b"⟩, none),
        fun _ => .ok ⟨[], [], ⟨false, "", false, "", false⟩⟩⟩
      ⟨"https://example.com", 0, 0, 0⟩).page.httpStatus < 400 ∧
    ∃ p, (analyzeReportGo
        ⟨"https://example.com", 1, 0, 0, 0, 1, 0, false, true, 0⟩
        (fun _ r => (r, none))).1.pages = [p] ∧
      p.status = statusError ∧ p.brokenLinks = some [] ∧ p.assets = some [] := by
  have h := C3_page_status_invariants
    ⟨fun _ => (⟨200, "", some "b"⟩, none),
      fun _ => .ok ⟨[], [], ⟨false, "", false, "", false⟩⟩⟩
    ⟨"https://example.com", 0, 0, 0⟩
    ⟨"https://example.com", 1, 0, 0, 0, 1, 0, false, true, 0⟩
    (fun _ r => (r, none))
  have hok := h.1.1.mpr ⟨rfl, by decide, rfl⟩
  exact ⟨hok, (h.1.2.1 hok).1,
    h.2.2 ⟨"https", "", "example.com", "", "", false, ""⟩ (by rfl) (by decide) rfl⟩

/-! ### Link checks at the maximum depth (C1) and same-origin gating
of link probes (C5)

`processJob` (analyzer_internal.go lines 332–382) never inspects
`job.depth` or the analyzer's `maxDepth`, and `resolveLinks`/
`runLinkChecks` (lines 567–591, 395–426) apply no same-origin filter:
the depth gate and the `urlutil.SameOrigin` gate exist only in
`aggregator.handleResult` (lines 301–316), which bounds *crawl-job
enqueueing*.  The repository's own tests
(`TestSpec_BrokenLinks_DepthZero_NoLinkChecks`,
`TestSpec_BrokenLinks_NotCollectedAtMaxDepth`,
`TestSpec_BrokenLinks_ExternalLinksAreIgnored` and the
`TestSpec_BrokenLinks_IntegratedDepthAndScopeContract` in
`src/crawler`) require zero probes in both situations, so the theorems
below exhibit the code's divergence from its own test contract. -/

/-- Environment for the depth-gating scenario: the root page links to
`/missing`, which answers 404. -/
def envMaxDepth : ProcEnv :=
  ⟨fun u =>
    if u = "https://example.com" then (⟨200, "", some "rootbody"⟩, none)
    else if u = "https://example.com/missing" then (⟨404, "", some "nf"⟩, none)
    else (⟨200, "", some ""⟩, none),
  fun b =>
    if b = some "rootbody" then
      .ok ⟨["https://example.com/missing"], [], ⟨false, "", false, "", false⟩⟩
    else .ok ⟨[], [], ⟨false, "", false, "", false⟩⟩⟩

/-- **C1 (code behaviour at the failing input).**  With `Depth = 0`
(so the root is at the maximum depth), processing the root page still
submits its resolved link to the link-check pool — one link-probe
fetch — and records the resulting broken link, although it enqueues no
crawl job; the spec and the repo's tests require zero probes here. -/
theorem C1_max_depth_page_still_probes_links :
    normalizeMaxDepth 0 = 0 ∧
    (⟨"https://example.com", 0, 0, 0⟩ : CrawlJob).depth = normalizeMaxDepth 0 ∧
    processJobSubmitted envMaxDepth ⟨"https://example.com", 0, 0, 0⟩
      = ["https://example.com/missing"] ∧
    (processJob envMaxDepth ⟨"https://example.com", 0, 0, 0⟩).page.brokenLinks
      = some [⟨"https://example.com/missing", 404, "Not Found"⟩] := by
  refine ⟨rfl, rfl, by decide, by decide⟩

/-- Environment for the same-origin scenario: the root page at
`https://example.com` links to the cross-origin
`https://evil.test/broken`, which answers 404. -/
def envCrossOrigin : ProcEnv :=
  ⟨fun u =>
    if u = "https://example.com" then (⟨200, "", some "rootbody"⟩, none)
    else if u = "https://evil.test/broken" then (⟨404, "", some "nf"⟩, none)
    else (⟨200, "", some ""⟩, none),
  fun b =>
    if b = some "rootbody" then
      .ok ⟨["https://evil.test/broken"], [], ⟨false, "", false, "", false⟩⟩
    else .ok ⟨[], [], ⟨false, "", false, "", false⟩⟩⟩

/-- **C5 (code behaviour at the failing input).**  A link whose host
differs from the root's is not same-origin, yet `processJob` submits
it to the link-check pool (one probe of the foreign URL) and records
it as a broken link; the spec and the repo's tests require
cross-origin links to be neither probed nor recorded. -/
theorem C5_cross_origin_link_probed_and_recorded :
    sameOrigin ⟨"https", "", "example.com", "", "", false, ""⟩
      "https://evil.test/broken" = false ∧
    processJobSubmitted envCrossOrigin ⟨"https://example.com", 0, 0, 0⟩
      = ["https://evil.test/broken"] ∧
    (processJob envCrossOrigin ⟨"https://example.com", 0, 0, 0⟩).page.brokenLinks
      = some [⟨"https://evil.test/broken", 404, "Not Found"⟩] := by
  refine ⟨by decide, by decide, by decide⟩

/-- Witness for `C8_limiter_wait_spacing`: the scenario of the repo's
`TestLimiterWaitSecondCall` (interval 100, first grant at 0, second call
at 40 sleeps 60 and is granted at 100), plus a concrete grant chain. -/
theorem C8_limiter_wait_spacing_witness :
    limiterWait ⟨100, some 0⟩ 40 = ⟨⟨100, some 100⟩, 60, 100⟩ ∧
      List.Chain' (fun a b : Int => a + 100 ≤ b)
        (grantsFrom ⟨100, none⟩ [0, 40, 150]) := by
  constructor
  · have h := C8_limiter_wait_spacing.2.1 ⟨100, some 0⟩ 0 40 rfl (by decide)
    simpa using h
  · exact C8_limiter_wait_spacing.2.2.2 100 [0, 40, 150]

end Crawl
